import Mathlib

/-!
Shallow embedding of the broadcast registry, subscriber write loop, periodic
publisher, and metric-collection handlers of the GOTTH system monitor.

The registry (`Server`, `addSubscriber`, `removeSubscriber`, `publishMsg`)
models `main.go`: a membership set of subscriber identities, one bounded
FIFO outbox (buffered Go channel) per subscriber, non-blocking fan-out with
eviction on saturation.  Go channel semantics that matter here are modelled
explicitly: `close` of an already-closed channel panics (modelled as
`Except.error`), a `select` send on a closed channel panics, and a receive
from a closed channel is always ready and yields the zero value.

The metric handlers (`GetSystemInfo`, `GetDiskInfo`, `GetCPUInfo`) model
`handlers/handler.go`; the gopsutil calls are inputs (`Except` values).
Floating-point fields (`UsedPercent`, `Mhz`, per-core percentages) are only
ever passed through unchanged by this code, never computed with, so their
carrier is modelled as `ℚ`.
-/

namespace SystemMonitor

/-- Subscriber identity: an opaque reference (`*Subscriber` pointer in Go). -/
abbrev SubId := Nat

/-- Opaque payload bytes (`[]byte` in Go). -/
abbrev Payload := List Nat

/-- State of one buffered Go channel: pending values (FIFO, head = oldest)
and whether the channel has been closed. -/
structure Chan where
  buf : List Payload
  closed : Bool
deriving DecidableEq, Repr

/-- Registry state: `cap` is `subscriberMessageBuffer` (the per-outbox
capacity), `subs` the membership set (`map[*Subscriber]struct{}` keys;
distinct, order irrelevant), `chans sub` the outbox of subscriber `sub`, and
`written sub` the payloads that subscriber's write loop has written to its
transport so far. -/
structure Server where
  cap : Nat
  subs : List SubId
  chans : SubId → Chan
  written : SubId → List Payload

/-- Pointwise update of the channel map. -/
def updCh (f : SubId → Chan) (i : SubId) (c : Chan) : SubId → Chan :=
  fun j => if j = i then c else f j

/-- Pointwise update of the written-payload map. -/
def updW (f : SubId → List Payload) (i : SubId) (w : List Payload) : SubId → List Payload :=
  fun j => if j = i then w else f j

/-- Registration of a fresh subscriber (`websocketHandler` lines 80-85):
a new `Subscriber` is allocated with an empty open outbox of capacity
`s.cap`, then `addSubscriber` inserts it into the membership map. -/
def addSubscriber (s : Server) (sub : SubId) : Server :=
  { s with subs := if sub ∈ s.subs then s.subs else sub :: s.subs,
           chans := updCh s.chans sub ⟨[], false⟩,
           written := updW s.written sub [] }

/-- The `removeSubscriber` method: delete from the membership map (a no-op
when absent, as for Go map `delete`), then `close(subscriber.msgs)`.
Closing an already-closed Go channel panics, modelled as `Except.error`;
closing keeps the buffered values (Go `close` does not discard them). -/
def removeSubscriber (s : Server) (sub : SubId) : Except String Server :=
  let c := s.chans sub
  if c.closed then
    .error "close of closed channel"
  else
    .ok { s with subs := s.subs.erase sub,
                 chans := updCh s.chans sub ⟨c.buf, true⟩ }

/-- One iteration of the fan-out loop body in `publishMsg`
(`select { case subscriber.msgs <- msg: default: delete; close }`):
a send on a closed channel is ready in `select` and panics; otherwise the
send case is ready iff the buffer has room, and the `default` branch evicts
the subscriber (delete from membership, close its outbox). -/
def publishStep (cap : Nat) (msg : Payload) (st : Server) (sub : SubId) : Except String Server :=
  let c := st.chans sub
  if c.closed then
    .error "send on closed channel"
  else if c.buf.length < cap then
    .ok { st with chans := updCh st.chans sub ⟨c.buf ++ [msg], false⟩ }
  else
    .ok { st with subs := st.subs.erase sub,
                  chans := updCh st.chans sub ⟨c.buf, true⟩ }

/-- The fan-out iteration of `publishMsg` over the membership snapshot. -/
def publishLoop (cap : Nat) (msg : Payload) : Server → List SubId → Except String Server
  | st, [] => .ok st
  | st, sub :: rest =>
    match publishStep cap msg st sub with
    | .error e => .error e
    | .ok st1 => publishLoop cap msg st1 rest

/-- The `publishMsg` method: under the registry lock, iterate over the
current membership and attempt a non-blocking enqueue on each subscriber's
outbox, evicting saturated subscribers.  Go map iteration visits each
(pre-call) key once; deletions during iteration only remove the entry being
visited, so iterating the pre-call membership list is faithful. -/
def publishMsg (msg : Payload) (s : Server) : Except String Server :=
  publishLoop s.cap msg s s.subs

/-- Registry-level events: a new connection registering, an explicit
unregistration, a publish cycle, and one successful write-loop iteration of
a subscriber (dequeue-and-write). -/
inductive Op where
  | register (sub : SubId)
  | unregister (sub : SubId)
  | publish (msg : Payload)
  | dequeue (sub : SubId)
deriving DecidableEq, Repr

/-- Interleaving semantics of one event against the registry state.
`dequeue sub` models one iteration of `sub`'s write loop in which the
transport write succeeds: a receive is ready iff the outbox is nonempty or
closed; a receive from a closed empty channel yields the zero value `[]`
(nil), which the loop writes as an empty message; on an empty open outbox
the `select` takes the `default` (ping) branch, touching nothing. -/
def exec (s : Server) : Op → Except String Server
  | .register sub => .ok (addSubscriber s sub)
  | .unregister sub => removeSubscriber s sub
  | .publish msg => publishMsg msg s
  | .dequeue sub =>
    let c := s.chans sub
    match c.buf with
    | [] =>
      if c.closed then
        .ok { s with written := updW s.written sub (s.written sub ++ [[]]) }
      else
        .ok s
    | h :: t =>
      .ok { s with chans := updCh s.chans sub ⟨t, c.closed⟩,
                   written := updW s.written sub (s.written sub ++ [h]) }

/-- Execution of a finite event trace. -/
def run (s : Server) : List Op → Except String Server
  | [] => .ok s
  | op :: ops =>
    match exec s op with
    | .error e => .error e
    | .ok s1 => run s1 ops

/-- Payloads of the publish events of a trace, in order. -/
def publishedPayloads (ops : List Op) : List Payload :=
  ops.filterMap fun op =>
    match op with
    | .publish m => some m
    | _ => none

/-- Modelled from the claim's words: the subscribers that have been
registered and not yet unregistered after a sequence of register/unregister
calls (register of a not-yet-member adds it, unregister of a member removes
it). -/
def registeredNotUnregistered (init : List SubId) : List Op → List SubId
  | [] => init
  | .register sub :: ops =>
    registeredNotUnregistered (if sub ∈ init then init else sub :: init) ops
  | .unregister sub :: ops => registeredNotUnregistered (init.erase sub) ops
  | _ :: ops => registeredNotUnregistered init ops

/-- Outcome of one iteration of the subscriber write loop
(`websocketHandler` lines 91-107): exit on a payload-write error, exit on a
ping error, or continue with the new channel state, recording what was
written to the transport this iteration (`some p`: a text message with
payload `p`; `none`: a ping). -/
inductive WsOutcome where
  | exitWriteError
  | exitPingError
  | cont (c : Chan) (wrote : Option Payload)
deriving DecidableEq, Repr

/-- One iteration of the write loop's `select`.  The receive case is ready
iff the channel is nonempty or closed (a receive from a closed channel is
always ready in Go and yields the zero value `nil`, written as an empty
text message); otherwise the `default` branch sends a ping and sleeps.
`writeOk` is whether this iteration's transport write succeeds. -/
def wsStep (c : Chan) (writeOk : Bool) : WsOutcome :=
  if c.buf = [] ∧ c.closed = false then
    if writeOk then .cont c none else .exitPingError
  else
    match c.buf with
    | [] => if writeOk then .cont c (some []) else .exitWriteError
    | h :: t => if writeOk then .cont ⟨t, c.closed⟩ (some h) else .exitWriteError

/-- Whether the write loop is still running after some iterations. -/
inductive WsState where
  | running (c : Chan)
  | exited
deriving DecidableEq, Repr

/-- Iterate the write loop `n` times; `w k` is whether the transport write
of iteration `k` succeeds.  The loop body has no exit path other than the
two write-error returns. -/
def wsIter (w : Nat → Bool) : Nat → Chan → WsState
  | 0, c => .running c
  | n + 1, c =>
    match wsStep c (w 0) with
    | .cont c1 _ => wsIter (fun k => w (k + 1)) n c1
    | _ => .exited

/-- Opaque error from a gopsutil call (`error` in Go). -/
abbrev Err := String

/-- Result of `mem.VirtualMemory()`: byte counts and used percentage. -/
structure VMStat where
  total : Nat
  free : Nat
  usedPercent : ℚ
deriving DecidableEq, Repr

/-- Result of `host.Info()`: the fields the handler reads. -/
structure HostStat where
  platform : String
  hostname : String
  procs : Nat
deriving DecidableEq, Repr

/-- Result of `disk.Usage("/")`: byte counts and used percentage. -/
structure DiskStat where
  total : Nat
  used : Nat
  free : Nat
  usedPercent : ℚ
deriving DecidableEq, Repr

/-- One entry of `cpu.Info()`: the fields the handler reads. -/
structure CPUStatEntry where
  modelName : String
  family : String
  mhz : ℚ
deriving DecidableEq, Repr

/-- The `SystemInfo` struct of `handlers/handler.go`. -/
structure SystemInfo where
  os : String
  platform : String
  hostname : String
  procs : Nat
  totalMem : Nat
  freeMem : Nat
  usedPercent : ℚ
deriving DecidableEq, Repr

/-- The `DiskInfo` struct of `handlers/handler.go`. -/
structure DiskInfo where
  total : Nat
  used : Nat
  free : Nat
  usedPercent : ℚ
deriving DecidableEq, Repr

/-- The `CPUInfo` struct of `handlers/handler.go`. -/
structure CPUInfo where
  modelName : String
  family : String
  mhz : ℚ
  percentages : List ℚ
deriving DecidableEq, Repr

/-- The constant `megabyteDiv uint64 = 1024 * 1024`. -/
def megabyteDiv : Nat := 1024 * 1024

/-- The constant `gigabyteDiv uint64 = megabyteDiv * 1024`. -/
def gigabyteDiv : Nat := megabyteDiv * 1024

/-- The `GetSystemInfo` handler.  The gopsutil results are inputs; the Go
return pair `(*SystemInfo, error)` is modelled as
`Option SystemInfo × Option Err`. -/
def GetSystemInfo (runTimeOS : String) (vm : Except Err VMStat)
    (host : Except Err HostStat) : Option SystemInfo × Option Err :=
  match vm with
  | .error e => (none, some e)
  | .ok vmStat =>
    match host with
    | .error e => (none, some e)
    | .ok hostStat =>
      (some { os := runTimeOS
              platform := hostStat.platform
              hostname := hostStat.hostname
              procs := hostStat.procs
              totalMem := vmStat.total / megabyteDiv
              freeMem := vmStat.free / megabyteDiv
              usedPercent := vmStat.usedPercent }, none)

/-- The `GetDiskInfo` handler. -/
def GetDiskInfo (diskStat : Except Err DiskStat) : Option DiskInfo × Option Err :=
  match diskStat with
  | .error e => (none, some e)
  | .ok d =>
    (some { total := d.total / gigabyteDiv
            used := d.used / gigabyteDiv
            free := d.free / gigabyteDiv
            usedPercent := d.usedPercent }, none)

/-- The `GetCPUInfo` handler: `modelName`, `family`, `mhz` default to Go
zero values and are filled from `cpuStat[0]` only when the list is
nonempty. -/
def GetCPUInfo (cpuStat : Except Err (List CPUStatEntry))
    (percent : Except Err (List ℚ)) : Option CPUInfo × Option Err :=
  match cpuStat with
  | .error e => (none, some e)
  | .ok entries =>
    match percent with
    | .error e => (none, some e)
    | .ok percentage =>
      match entries with
      | [] =>
        (some { modelName := "", family := "", mhz := 0,
                percentages := percentage }, none)
      | first :: _ =>
        (some { modelName := first.modelName, family := first.family,
                mhz := first.mhz, percentages := percentage }, none)

/-- Outcomes of the steps of one publisher cycle (`startDataPublisher`
loop body): the three metric collections and the four component renders,
each an external collaborator that succeeds with a value or fails. -/
structure CycleEnv where
  sys : Except Err SystemInfo
  dsk : Except Err DiskInfo
  cpu : Except Err CPUInfo
  renderSystem : Except Err String
  renderDisk : Except Err String
  renderCPU : Except Err String
  renderStatus : Except Err String
deriving Repr

/-- Decidable success test for an `Except` result. -/
def isOkB {α : Type} : Except Err α → Bool
  | .ok _ => true
  | .error _ => false

/-- The `fmt.Sprintf` assembling the HTMX out-of-band payload from the four
rendered buffers. -/
def buildMsg (statusBuf systemBuf cpuBuf diskBuf : String) : String :=
  "<div hx-swap-oob=\"innerHTML:#update-timestamp\">" ++ statusBuf ++ "</div>" ++
  "<div hx-swap-oob=\"innerHTML:#system-data\">" ++ systemBuf ++ "</div>" ++
  "<div hx-swap-oob=\"innerHTML:#cpu-data\">" ++ cpuBuf ++ "</div>" ++
  "<div hx-swap-oob=\"innerHTML:#disk-data\">" ++ diskBuf ++ "</div>"

/-- One cycle of `startDataPublisher`: each collection or render failure
executes `continue` (the cycle publishes nothing); when every step
succeeds, the assembled payload is handed to `publishMsg` exactly once.
The returned `Option` is the payload published this cycle, if any. -/
def runCycle (env : CycleEnv) : Option String :=
  match env.sys with
  | .error _ => none
  | .ok _ =>
  match env.dsk with
  | .error _ => none
  | .ok _ =>
  match env.cpu with
  | .error _ => none
  | .ok _ =>
  match env.renderSystem with
  | .error _ => none
  | .ok systemBuf =>
  match env.renderDisk with
  | .error _ => none
  | .ok diskBuf =>
  match env.renderCPU with
  | .error _ => none
  | .ok cpuBuf =>
  match env.renderStatus with
  | .error _ => none
  | .ok statusBuf => some (buildMsg statusBuf systemBuf cpuBuf diskBuf)

/-- Whether an event is a register or unregister call. -/
def isRegEvent : Op → Bool
  | .register _ => true
  | .unregister _ => true
  | _ => false

/-- A concrete two-subscriber registry state: subscriber 0 has room in its
outbox, subscriber 1 is saturated (capacity 1, one pending payload). -/
def twoSubServer : Server :=
  { cap := 1, subs := [0, 1],
    chans := fun j => if j = 1 then ⟨[[5]], false⟩ else ⟨[], false⟩,
    written := fun _ => [] }

/-- A fresh registry state as built by `NewServer` (no subscribers yet),
with outbox capacity 2. -/
def freshServer : Server :=
  { cap := 2, subs := [], chans := fun _ => ⟨[], false⟩, written := fun _ => [] }

/-- A registry state with the single subscriber 0, open empty outbox of
capacity 2, plus a second idle subscriber 7. -/
def oneSubServer : Server :=
  { cap := 2, subs := [0, 7], chans := fun _ => ⟨[], false⟩, written := fun _ => [] }

theorem updCh_same (f : SubId → Chan) (i : SubId) (c : Chan) : updCh f i c i = c := by
  simp [updCh]

theorem updCh_other (f : SubId → Chan) (i : SubId) (c : Chan) (j : SubId) (h : j ≠ i) :
    updCh f i c j = f j := by
  simp [updCh, h]

theorem updW_same (f : SubId → List Payload) (i : SubId) (w : List Payload) : updW f i w i = w := by
  simp [updW]

theorem updW_other (f : SubId → List Payload) (i : SubId) (w : List Payload) (j : SubId)
    (h : j ≠ i) : updW f i w j = f j := by
  simp [updW, h]

theorem publishStep_ok (cap : Nat) (msg : Payload) (st st2 : Server) (y : SubId)
    (h : publishStep cap msg st y = .ok st2) :
    (st.chans y).closed = false ∧ st2.cap = st.cap ∧ st2.written = st.written ∧
      (((st.chans y).buf.length < cap ∧ st2.subs = st.subs ∧
          st2.chans = updCh st.chans y ⟨(st.chans y).buf ++ [msg], false⟩) ∨
        (¬ (st.chans y).buf.length < cap ∧ st2.subs = st.subs.erase y ∧
          st2.chans = updCh st.chans y ⟨(st.chans y).buf, true⟩)) := by
  by_cases hc : (st.chans y).closed = true
  · simp [publishStep, hc] at h
  · have hc2 : (st.chans y).closed = false := by simpa using hc
    by_cases hl : (st.chans y).buf.length < cap
    · simp [publishStep, hc2, hl] at h
      subst h
      exact ⟨hc2, rfl, rfl, Or.inl ⟨hl, rfl, rfl⟩⟩
    · simp [publishStep, hc2, hl] at h
      subst h
      exact ⟨hc2, rfl, rfl, Or.inr ⟨hl, rfl, rfl⟩⟩

theorem publishLoop_frame (cap : Nat) (msg : Payload) (x : SubId) (l : List SubId) :
    ∀ st st1 : Server, x ∉ l → publishLoop cap msg st l = .ok st1 →
      st1.chans x = st.chans x ∧ (x ∈ st1.subs ↔ x ∈ st.subs) ∧
        st1.written x = st.written x := by
  induction l with
  | nil =>
    intro st st1 _ h
    simp only [publishLoop, Except.ok.injEq] at h
    subst h
    exact ⟨rfl, Iff.rfl, rfl⟩
  | cons y rest ih =>
    intro st st1 hx h
    have hxy : x ≠ y := fun hh => hx (hh ▸ List.mem_cons_self y rest)
    have hxrest : x ∉ rest := fun hh => hx (List.mem_cons_of_mem y hh)
    cases hstep : publishStep cap msg st y with
    | error e =>
      simp only [publishLoop, hstep] at h
      exact Except.noConfusion h
    | ok st2 =>
      simp only [publishLoop, hstep] at h
      obtain ⟨frch, frmem, frw⟩ := ih st2 st1 hxrest h
      obtain ⟨-, -, hwr, hcase⟩ := publishStep_ok cap msg st st2 y hstep
      rcases hcase with ⟨-, hsubs, hchans⟩ | ⟨-, hsubs, hchans⟩
      · refine ⟨?_, ?_, ?_⟩
        · rw [frch, hchans, updCh_other _ _ _ _ hxy]
        · rw [frmem, hsubs]
        · rw [frw, hwr]
      · refine ⟨?_, ?_, ?_⟩
        · rw [frch, hchans, updCh_other _ _ _ _ hxy]
        · rw [frmem, hsubs]
          exact List.mem_erase_of_ne hxy
        · rw [frw, hwr]

theorem publishLoop_nodup (cap : Nat) (msg : Payload) (l : List SubId) :
    ∀ st st1 : Server, publishLoop cap msg st l = .ok st1 → st.subs.Nodup →
      st1.subs.Nodup := by
  induction l with
  | nil =>
    intro st st1 h hnd
    simp only [publishLoop, Except.ok.injEq] at h
    subst h
    exact hnd
  | cons y rest ih =>
    intro st st1 h hnd
    cases hstep : publishStep cap msg st y with
    | error e =>
      simp only [publishLoop, hstep] at h
      exact Except.noConfusion h
    | ok st2 =>
      simp only [publishLoop, hstep] at h
      obtain ⟨-, -, -, hcase⟩ := publishStep_ok cap msg st st2 y hstep
      rcases hcase with ⟨-, hsubs, -⟩ | ⟨-, hsubs, -⟩
      · exact ih st2 st1 h (hsubs ▸ hnd)
      · exact ih st2 st1 h (hsubs ▸ hnd.erase y)

theorem publishLoop_member (cap : Nat) (msg : Payload) (x : SubId) (l : List SubId) :
    ∀ st st1 : Server, l.Nodup → st.subs.Nodup → x ∈ l →
      publishLoop cap msg st l = .ok st1 →
      (st.chans x).closed = false ∧
        ((st.chans x).buf.length < cap →
          (x ∈ st1.subs ↔ x ∈ st.subs) ∧
            st1.chans x = ⟨(st.chans x).buf ++ [msg], false⟩) ∧
        (¬ (st.chans x).buf.length < cap →
          x ∉ st1.subs ∧ st1.chans x = ⟨(st.chans x).buf, true⟩) ∧
        st1.written x = st.written x := by
  induction l with
  | nil => intro st st1 _ _ hx; exact absurd hx (List.not_mem_nil x)
  | cons y rest ih =>
    intro st st1 hlnd hnd hx h
    cases hstep : publishStep cap msg st y with
    | error e =>
      simp only [publishLoop, hstep] at h
      exact Except.noConfusion h
    | ok st2 =>
      simp only [publishLoop, hstep] at h
      by_cases hxy : x = y
      · subst hxy
        have hxrest : x ∉ rest := (List.nodup_cons.mp hlnd).1
        obtain ⟨frch, frmem, frw⟩ := publishLoop_frame cap msg x rest st2 st1 hxrest h
        obtain ⟨hopen, -, hwr, hcase⟩ := publishStep_ok cap msg st st2 x hstep
        rcases hcase with ⟨hl, hsubs, hchans⟩ | ⟨hl, hsubs, hchans⟩
        · refine ⟨hopen, fun _ => ⟨frmem.trans (by rw [hsubs]), ?_⟩,
            fun hnl => absurd hl hnl, by rw [frw, hwr]⟩
          rw [frch, hchans, updCh_same]
        · refine ⟨hopen, fun hll => absurd hll hl, fun _ => ⟨?_, ?_⟩, by rw [frw, hwr]⟩
          · intro hmem
            have : x ∈ st.subs.erase x := by
              rw [← hsubs]
              exact frmem.mp hmem
            exact hnd.not_mem_erase this
          · rw [frch, hchans, updCh_same]
      · have hxrest : x ∈ rest := by
          rcases List.mem_cons.mp hx with h1 | h1
          · exact absurd h1 hxy
          · exact h1
        have hrest : rest.Nodup := (List.nodup_cons.mp hlnd).2
        obtain ⟨-, -, hwr, hcase⟩ := publishStep_ok cap msg st st2 y hstep
        rcases hcase with ⟨hl, hsubs, hchans⟩ | ⟨hl, hsubs, hchans⟩
        · have hch2 : st2.chans x = st.chans x := by
            rw [hchans, updCh_other _ _ _ _ hxy]
          obtain ⟨c1, c2, c3, c4⟩ := ih st2 st1 hrest (hsubs ▸ hnd) hxrest h
          rw [hch2] at c1 c2 c3
          refine ⟨c1, fun hll => ?_, fun hnl => ?_, by rw [c4, hwr]⟩
          · obtain ⟨m1, m2⟩ := c2 hll
            exact ⟨m1.trans (by rw [hsubs]), m2⟩
          · exact c3 hnl
        · have hch2 : st2.chans x = st.chans x := by
            rw [hchans, updCh_other _ _ _ _ hxy]
          obtain ⟨c1, c2, c3, c4⟩ := ih st2 st1 hrest (hsubs ▸ hnd.erase y) hxrest h
          rw [hch2] at c1 c2 c3
          refine ⟨c1, fun hll => ?_, fun hnl => ?_, by rw [c4, hwr]⟩
          · obtain ⟨m1, m2⟩ := c2 hll
            refine ⟨m1.trans ?_, m2⟩
            rw [hsubs]
            exact List.mem_erase_of_ne hxy
          · exact c3 hnl

theorem exec_nodup (s s1 : Server) (op : Op) (h : exec s op = .ok s1)
    (hnd : s.subs.Nodup) : s1.subs.Nodup := by
  cases op with
  | register sub =>
    simp only [exec, addSubscriber, Except.ok.injEq] at h
    subst h
    by_cases hmem : sub ∈ s.subs
    · simpa [hmem] using hnd
    · simpa [hmem] using List.nodup_cons.mpr ⟨hmem, hnd⟩
  | unregister sub =>
    by_cases hc : (s.chans sub).closed = true
    · simp [exec, removeSubscriber, hc] at h
    · simp only [exec, removeSubscriber, hc, Bool.false_eq_true, if_false,
        Except.ok.injEq] at h
      subst h
      exact hnd.erase sub
  | publish msg =>
    simp only [exec, publishMsg] at h
    exact publishLoop_nodup s.cap msg s.subs s s1 h hnd
  | dequeue sub =>
    simp only [exec] at h
    cases hbuf : (s.chans sub).buf with
    | nil =>
      rw [hbuf] at h
      by_cases hc : (s.chans sub).closed = true
      · simp only [hc, if_true, Except.ok.injEq] at h
        subst h
        exact hnd
      · simp only [hc, Bool.false_eq_true, if_false, Except.ok.injEq] at h
        subst h
        exact hnd
    | cons hd tl =>
      rw [hbuf] at h
      simp only [Except.ok.injEq] at h
      subst h
      exact hnd

theorem exec_not_member (s s1 : Server) (op : Op) (sub : SubId)
    (hop : op ≠ Op.register sub) (hmem : sub ∉ s.subs) (h : exec s op = .ok s1) :
    sub ∉ s1.subs ∧ (s1.chans sub).buf <:+ (s.chans sub).buf ∧
      ((s.chans sub).closed = true → (s1.chans sub).closed = true) := by
  cases op with
  | register y =>
    have hy : sub ≠ y := fun hh => hop (by rw [hh])
    simp only [exec, addSubscriber, Except.ok.injEq] at h
    subst h
    refine ⟨?_, ?_, ?_⟩
    · by_cases hmy : y ∈ s.subs <;> simp [hmy, hmem, hy]
    · simp [updCh, hy]
    · intro hh
      simpa [updCh, hy] using hh
  | unregister y =>
    by_cases hc : (s.chans y).closed = true
    · simp [exec, removeSubscriber, hc] at h
    · simp only [exec, removeSubscriber, hc, Bool.false_eq_true, if_false,
        Except.ok.injEq] at h
      subst h
      refine ⟨fun hh => hmem (List.mem_of_mem_erase hh), ?_, ?_⟩
      · by_cases hy : sub = y
        · subst hy
          simp [updCh]
        · simp [updCh, hy]
      · by_cases hy : sub = y
        · subst hy
          simp [updCh]
        · intro hh
          simpa [updCh, hy] using hh
  | publish msg =>
    simp only [exec, publishMsg] at h
    obtain ⟨hch, hmm, -⟩ := publishLoop_frame s.cap msg sub s.subs s s1 hmem h
    exact ⟨fun hh => hmem (hmm.mp hh), by rw [hch], by rw [hch]; exact fun hh => hh⟩
  | dequeue y =>
    simp only [exec] at h
    by_cases hy : sub = y
    · subst hy
      cases hbuf : (s.chans sub).buf with
      | nil =>
        rw [hbuf] at h
        by_cases hc : (s.chans sub).closed = true
        · simp only [hc, if_true, Except.ok.injEq] at h
          subst h
          refine ⟨hmem, ?_, fun hh => hh⟩
          show (s.chans sub).buf <:+ []
          rw [hbuf]
        · simp only [hc, Bool.false_eq_true, if_false, Except.ok.injEq] at h
          subst h
          refine ⟨hmem, ?_, fun hh => hh⟩
          show (s.chans sub).buf <:+ []
          rw [hbuf]
      | cons hd tl =>
        rw [hbuf] at h
        simp only [Except.ok.injEq] at h
        subst h
        refine ⟨hmem, ?_, ?_⟩
        · show (updCh s.chans sub ⟨tl, (s.chans sub).closed⟩ sub).buf <:+ hd :: tl
          rw [updCh_same]
          exact ⟨[hd], rfl⟩
        · intro hh
          simpa [updCh] using hh
    · cases hbuf : (s.chans y).buf with
      | nil =>
        rw [hbuf] at h
        by_cases hc : (s.chans y).closed = true
        · simp only [hc, if_true, Except.ok.injEq] at h
          subst h
          exact ⟨hmem, List.suffix_refl _, fun hh => hh⟩
        · simp only [hc, Bool.false_eq_true, if_false, Except.ok.injEq] at h
          subst h
          exact ⟨hmem, List.suffix_refl _, fun hh => hh⟩
      | cons hd tl =>
        rw [hbuf] at h
        simp only [Except.ok.injEq] at h
        subst h
        refine ⟨hmem, ?_, ?_⟩
        · simp [updCh, hy]
        · intro hh
          simpa [updCh, hy] using hh

theorem run_not_member (sub : SubId) (ops : List Op) :
    ∀ s s1 : Server, Op.register sub ∉ ops → sub ∉ s.subs → run s ops = .ok s1 →
      sub ∉ s1.subs ∧ (s1.chans sub).buf <:+ (s.chans sub).buf ∧
        ((s.chans sub).closed = true → (s1.chans sub).closed = true) := by
  induction ops with
  | nil =>
    intro s s1 _ hm h
    simp only [run, Except.ok.injEq] at h
    subst h
    exact ⟨hm, List.suffix_refl _, fun hh => hh⟩
  | cons op rest ih =>
    intro s s1 hreg hm h
    cases hex : exec s op with
    | error e =>
      simp only [run, hex] at h
      exact Except.noConfusion h
    | ok s2 =>
      simp only [run, hex] at h
      have hop : op ≠ Op.register sub := fun hh => hreg (hh ▸ List.mem_cons_self _ _)
      obtain ⟨m2, sfx2, cl2⟩ := exec_not_member s s2 op sub hop hm hex
      have hregr : Op.register sub ∉ rest := fun hh => hreg (List.mem_cons_of_mem _ hh)
      obtain ⟨m1, sfx1, cl1⟩ := ih s2 s1 hregr m2 h
      exact ⟨m1, sfx1.trans sfx2, fun hh => cl1 (cl2 hh)⟩

theorem publishedPayloads_cons_publish (m : Payload) (rest : List Op) :
    publishedPayloads (Op.publish m :: rest) = m :: publishedPayloads rest := by
  simp [publishedPayloads, List.filterMap_cons]

theorem publishedPayloads_cons_register (y : SubId) (rest : List Op) :
    publishedPayloads (Op.register y :: rest) = publishedPayloads rest := by
  simp [publishedPayloads, List.filterMap_cons]

theorem publishedPayloads_cons_unregister (y : SubId) (rest : List Op) :
    publishedPayloads (Op.unregister y :: rest) = publishedPayloads rest := by
  simp [publishedPayloads, List.filterMap_cons]

theorem publishedPayloads_cons_dequeue (y : SubId) (rest : List Op) :
    publishedPayloads (Op.dequeue y :: rest) = publishedPayloads rest := by
  simp [publishedPayloads, List.filterMap_cons]

theorem run_member_fifo (sub : SubId) (ops : List Op) :
    ∀ s s1 : Server, run s ops = .ok s1 →
      Op.register sub ∉ ops → Op.unregister sub ∉ ops →
      s.subs.Nodup → sub ∈ s.subs → (s.chans sub).closed = false →
      sub ∈ s1.subs →
      s1.written sub ++ (s1.chans sub).buf =
        s.written sub ++ (s.chans sub).buf ++ publishedPayloads ops := by
  induction ops with
  | nil =>
    intro s s1 h _ _ _ _ _ _
    simp only [run, Except.ok.injEq] at h
    subst h
    simp [publishedPayloads]
  | cons op rest ih =>
    intro s s1 h hreg hunreg hnd hmem hopen hmem1
    have hregr : Op.register sub ∉ rest := fun hh => hreg (List.mem_cons_of_mem _ hh)
    have hunregr : Op.unregister sub ∉ rest := fun hh => hunreg (List.mem_cons_of_mem _ hh)
    cases hex : exec s op with
    | error e =>
      simp only [run, hex] at h
      exact Except.noConfusion h
    | ok s2 =>
      simp only [run, hex] at h
      have hnd2 : s2.subs.Nodup := exec_nodup s s2 op hex hnd
      cases op with
      | register y =>
        have hy : sub ≠ y := fun hh => hreg (by rw [hh]; exact List.mem_cons_self _ _)
        simp only [exec, addSubscriber, Except.ok.injEq] at hex
        subst hex
        have hch : updCh s.chans y ⟨[], false⟩ sub = s.chans sub := updCh_other _ _ _ _ hy
        have hwr : updW s.written y [] sub = s.written sub := updW_other _ _ _ _ hy
        have hmem2 : sub ∈ (if y ∈ s.subs then s.subs else y :: s.subs) := by
          by_cases hmy : y ∈ s.subs <;> simp [hmy, hmem]
        have := ih _ s1 h hregr hunregr hnd2 hmem2 (by
          show (updCh s.chans y ⟨[], false⟩ sub).closed = false
          rw [hch]
          exact hopen) hmem1
        rw [publishedPayloads_cons_register]
        calc s1.written sub ++ (s1.chans sub).buf
            = updW s.written y [] sub ++ (updCh s.chans y ⟨[], false⟩ sub).buf ++
                publishedPayloads rest := this
          _ = s.written sub ++ (s.chans sub).buf ++ publishedPayloads rest := by
                rw [hch, hwr]
      | unregister y =>
        have hy : sub ≠ y := fun hh => hunreg (by rw [hh]; exact List.mem_cons_self _ _)
        by_cases hc : (s.chans y).closed = true
        · simp [exec, removeSubscriber, hc] at hex
        · simp only [exec, removeSubscriber, hc, Bool.false_eq_true, if_false,
            Except.ok.injEq] at hex
          subst hex
          have hch : updCh s.chans y ⟨(s.chans y).buf, true⟩ sub = s.chans sub :=
            updCh_other _ _ _ _ hy
          have hmem2 : sub ∈ s.subs.erase y := (List.mem_erase_of_ne hy).mpr hmem
          have := ih _ s1 h hregr hunregr hnd2 hmem2 (by
            show (updCh s.chans y ⟨(s.chans y).buf, true⟩ sub).closed = false
            rw [hch]
            exact hopen) hmem1
          rw [publishedPayloads_cons_unregister]
          calc s1.written sub ++ (s1.chans sub).buf
              = s.written sub ++ (updCh s.chans y ⟨(s.chans y).buf, true⟩ sub).buf ++
                  publishedPayloads rest := this
            _ = s.written sub ++ (s.chans sub).buf ++ publishedPayloads rest := by rw [hch]
      | publish m =>
        simp only [exec, publishMsg] at hex
        obtain ⟨-, c2, c3, c4⟩ :=
          publishLoop_member s.cap m sub s.subs s s2 hnd hnd hmem hex
        by_cases hroom : (s.chans sub).buf.length < s.cap
        · obtain ⟨miff, mch⟩ := c2 hroom
          have hmem2 : sub ∈ s2.subs := miff.mpr hmem
          have hopen2 : (s2.chans sub).closed = false := by rw [mch]
          have := ih s2 s1 h hregr hunregr hnd2 hmem2 hopen2 hmem1
          rw [publishedPayloads_cons_publish, this, c4, mch]
          simp
        · obtain ⟨hout, -⟩ := c3 hroom
          obtain ⟨hout1, -, -⟩ := run_not_member sub rest s2 s1 hregr hout h
          exact absurd hmem1 hout1
      | dequeue y =>
        by_cases hy : sub = y
        · subst hy
          simp only [exec] at hex
          cases hbuf : (s.chans sub).buf with
          | nil =>
            rw [hbuf] at hex
            rw [hopen] at hex
            simp only [Bool.false_eq_true, if_false, Except.ok.injEq] at hex
            subst hex
            have := ih s s1 h hregr hunregr hnd hmem hopen hmem1
            rw [publishedPayloads_cons_dequeue, this, hbuf]
          | cons hd tl =>
            rw [hbuf] at hex
            simp only [Except.ok.injEq] at hex
            subst hex
            have hch : updCh s.chans sub ⟨tl, (s.chans sub).closed⟩ sub =
                ⟨tl, (s.chans sub).closed⟩ := updCh_same _ _ _
            have hwr : updW s.written sub (s.written sub ++ [hd]) sub =
                s.written sub ++ [hd] := updW_same _ _ _
            have hmem2 : sub ∈ ({ s with
                chans := updCh s.chans sub ⟨tl, (s.chans sub).closed⟩,
                written := updW s.written sub (s.written sub ++ [hd]) } : Server).subs :=
              hmem
            have := ih _ s1 h hregr hunregr hnd2 hmem2 (by
              show (updCh s.chans sub ⟨tl, (s.chans sub).closed⟩ sub).closed = false
              rw [hch]
              exact hopen) hmem1
            rw [publishedPayloads_cons_dequeue]
            calc s1.written sub ++ (s1.chans sub).buf
                = updW s.written sub (s.written sub ++ [hd]) sub ++
                    (updCh s.chans sub ⟨tl, (s.chans sub).closed⟩ sub).buf ++
                    publishedPayloads rest := this
              _ = s.written sub ++ hd :: tl ++ publishedPayloads rest := by
                    rw [hch, hwr]
                    simp
        · simp only [exec] at hex
          cases hbuf : (s.chans y).buf with
          | nil =>
            rw [hbuf] at hex
            by_cases hc : (s.chans y).closed = true
            · simp only [hc, if_true, Except.ok.injEq] at hex
              subst hex
              have hwr : updW s.written y (s.written y ++ [[]]) sub = s.written sub :=
                updW_other _ _ _ _ hy
              have := ih _ s1 h hregr hunregr hnd2 hmem hopen hmem1
              rw [publishedPayloads_cons_dequeue]
              calc s1.written sub ++ (s1.chans sub).buf
                  = updW s.written y (s.written y ++ [[]]) sub ++ (s.chans sub).buf ++
                      publishedPayloads rest := this
                _ = s.written sub ++ (s.chans sub).buf ++ publishedPayloads rest := by
                      rw [hwr]
            · simp only [hc, Bool.false_eq_true, if_false, Except.ok.injEq] at hex
              subst hex
              have := ih s s1 h hregr hunregr hnd hmem hopen hmem1
              rw [publishedPayloads_cons_dequeue, this]
          | cons hd tl =>
            rw [hbuf] at hex
            simp only [Except.ok.injEq] at hex
            subst hex
            have hch : updCh s.chans y ⟨tl, (s.chans y).closed⟩ sub = s.chans sub :=
              updCh_other _ _ _ _ hy
            have hwr : updW s.written y (s.written y ++ [hd]) sub = s.written sub :=
              updW_other _ _ _ _ hy
            have := ih _ s1 h hregr hunregr hnd2 hmem (by
              show (updCh s.chans y ⟨tl, (s.chans y).closed⟩ sub).closed = false
              rw [hch]
              exact hopen) hmem1
            rw [publishedPayloads_cons_dequeue]
            calc s1.written sub ++ (s1.chans sub).buf
                = updW s.written y (s.written y ++ [hd]) sub ++
                    (updCh s.chans y ⟨tl, (s.chans y).closed⟩ sub).buf ++
                    publishedPayloads rest := this
              _ = s.written sub ++ (s.chans sub).buf ++ publishedPayloads rest := by
                    rw [hch, hwr]

theorem run_subs_track (ops : List Op) :
    ∀ s s1 : Server, (∀ op ∈ ops, isRegEvent op = true) → run s ops = .ok s1 →
      s1.subs = registeredNotUnregistered s.subs ops := by
  induction ops with
  | nil =>
    intro s s1 _ h
    simp only [run, Except.ok.injEq] at h
    subst h
    rfl
  | cons op rest ih =>
    intro s s1 hops h
    cases hex : exec s op with
    | error e =>
      simp only [run, hex] at h
      exact Except.noConfusion h
    | ok s2 =>
      simp only [run, hex] at h
      have hopsr : ∀ op2 ∈ rest, isRegEvent op2 = true :=
        fun o ho => hops o (List.mem_cons_of_mem _ ho)
      cases op with
      | register y =>
        simp only [exec, addSubscriber, Except.ok.injEq] at hex
        subst hex
        have := ih _ s1 hopsr h
        rw [this]
        rfl
      | unregister y =>
        by_cases hc : (s.chans y).closed = true
        · simp [exec, removeSubscriber, hc] at hex
        · simp only [exec, removeSubscriber, hc, Bool.false_eq_true, if_false,
            Except.ok.injEq] at hex
          subst hex
          have := ih _ s1 hopsr h
          rw [this]
          rfl
      | publish m =>
        have := hops _ (List.mem_cons_self _ _)
        simp [isRegEvent] at this
      | dequeue y =>
        have := hops _ (List.mem_cons_self _ _)
        simp [isRegEvent] at this

/-- C1: for every subscriber in the membership set at the time of a
`publishMsg` call, the publish attempts a non-blocking enqueue onto that
subscriber's outbox: if the outbox has free capacity the payload is
appended to it and the subscriber stays a member; if the outbox is full
the subscriber is removed from membership and its outbox closed.  The
fan-out is a pure function of the registry state (`publishMsg` is total on
its membership snapshot), so it never waits on any subscriber's transport. -/
theorem C1_publish_enqueue_or_evict (s s1 : Server) (msg : Payload) (sub : SubId)
    (hnd : s.subs.Nodup) (hmem : sub ∈ s.subs)
    (hrun : publishMsg msg s = .ok s1) :
    ((s.chans sub).buf.length < s.cap →
      sub ∈ s1.subs ∧ s1.chans sub = ⟨(s.chans sub).buf ++ [msg], false⟩) ∧
    (¬ (s.chans sub).buf.length < s.cap →
      sub ∉ s1.subs ∧ s1.chans sub = ⟨(s.chans sub).buf, true⟩) := by
  obtain ⟨-, c2, c3, -⟩ := publishLoop_member s.cap msg sub s.subs s s1 hnd hnd hmem hrun
  refine ⟨fun hl => ⟨(c2 hl).1.mpr hmem, (c2 hl).2⟩, fun hnl => ⟨(c3 hnl).1, (c3 hnl).2⟩⟩

/-- Witness for C1 on `twoSubServer` (capacity 1): subscriber 0 has room
and receives the payload; subscriber 1 is saturated and is evicted. -/
theorem C1_publish_enqueue_or_evict_witness :
    twoSubServer.subs.Nodup ∧ 0 ∈ twoSubServer.subs ∧ 1 ∈ twoSubServer.subs ∧
    ∃ s1, publishMsg [7] twoSubServer = .ok s1 ∧
      (((twoSubServer.chans 0).buf.length < twoSubServer.cap →
        0 ∈ s1.subs ∧ s1.chans 0 = ⟨(twoSubServer.chans 0).buf ++ [[7]], false⟩) ∧
      (¬ (twoSubServer.chans 0).buf.length < twoSubServer.cap →
        0 ∉ s1.subs ∧ s1.chans 0 = ⟨(twoSubServer.chans 0).buf, true⟩)) ∧
      (((twoSubServer.chans 1).buf.length < twoSubServer.cap →
        1 ∈ s1.subs ∧ s1.chans 1 = ⟨(twoSubServer.chans 1).buf ++ [[7]], false⟩) ∧
      (¬ (twoSubServer.chans 1).buf.length < twoSubServer.cap →
        1 ∉ s1.subs ∧ s1.chans 1 = ⟨(twoSubServer.chans 1).buf, true⟩)) := by
  refine ⟨by decide, by decide, by decide, _, rfl, ?_, ?_⟩
  · exact C1_publish_enqueue_or_evict twoSubServer _ [7] 0 (by decide) (by decide) rfl
  · exact C1_publish_enqueue_or_evict twoSubServer _ [7] 1 (by decide) (by decide) rfl

/-- C2 concerns a code bug: a second `removeSubscriber` on an already
unregistered subscriber is not a no-op — it reaches
`close(subscriber.msgs)` on an already-closed channel, which panics.
First conjunct: the deferred `removeSubscriber` that runs after a
subscriber was evicted for saturation (register, fill capacity-2 outbox
with two publishes, a third publish evicts and closes, then the deferred
unregister) panics.  Second conjunct: two consecutive `removeSubscriber`
calls on the same subscriber panic on the second call. -/
theorem C2_second_unregister_panics :
    run freshServer [Op.register 0, Op.publish [1], Op.publish [2], Op.publish [3],
        Op.unregister 0] = .error "close of closed channel" ∧
    (removeSubscriber oneSubServer 0).bind (fun s1 => removeSubscriber s1 0) =
      .error "close of closed channel" := by
  exact ⟨rfl, rfl⟩

/-- C3: once a subscriber has been unregistered — explicitly, by a
successful `removeSubscriber`, or by saturation eviction during
`publishMsg` (it is a member whose outbox is full when the publish runs) —
and as long as it is never re-registered (the program allocates a fresh
subscriber per connection, so an identity is registered at most once), no
later event — in particular no later `publishMsg` — ever enqueues a
payload into its outbox: it stays out of the membership set, its outbox
stays closed, and the outbox content only ever shrinks (a suffix of what
it was; the write loop may still drain it). -/
theorem C3_unregistered_never_enqueued (s s1 : Server) (sub : SubId)
    (op0 : Op) (ops : List Op) (hnd : s.subs.Nodup)
    (hmode : op0 = Op.unregister sub ∨
      ∃ m, op0 = Op.publish m ∧ sub ∈ s.subs ∧
        ¬ (s.chans sub).buf.length < s.cap)
    (hreg : Op.register sub ∉ ops)
    (hrun : run s (op0 :: ops) = .ok s1) :
    sub ∉ s1.subs ∧ (s1.chans sub).buf <:+ (s.chans sub).buf ∧
      (s1.chans sub).closed = true := by
  cases hex : exec s op0 with
  | error e =>
    simp only [run, hex] at hrun
    exact Except.noConfusion hrun
  | ok s2 =>
    simp only [run, hex] at hrun
    rcases hmode with hm | ⟨m, hm, hmem, hfull⟩
    · subst hm
      by_cases hc : (s.chans sub).closed = true
      · simp [exec, removeSubscriber, hc] at hex
      · simp only [exec, removeSubscriber, hc, Bool.false_eq_true, if_false,
          Except.ok.injEq] at hex
        subst hex
        have hout : sub ∉ (s.subs.erase sub) := hnd.not_mem_erase
        obtain ⟨m1, sfx1, cl1⟩ := run_not_member sub ops _ s1 hreg hout hrun
        have hch : updCh s.chans sub ⟨(s.chans sub).buf, true⟩ sub =
            ⟨(s.chans sub).buf, true⟩ := updCh_same _ _ _
        dsimp only at sfx1 cl1
        rw [hch] at sfx1 cl1
        exact ⟨m1, sfx1, cl1 rfl⟩
    · subst hm
      simp only [exec, publishMsg] at hex
      obtain ⟨-, -, c3, -⟩ :=
        publishLoop_member s.cap m sub s.subs s s2 hnd hnd hmem hex
      obtain ⟨hout, hch⟩ := c3 hfull
      obtain ⟨m1, sfx1, cl1⟩ := run_not_member sub ops s2 s1 hreg hout hrun
      rw [hch] at sfx1 cl1
      exact ⟨m1, sfx1, cl1 rfl⟩

/-- Witness for C3, exercising both unregistration modes.  Explicit:
unregister subscriber 0 of `oneSubServer`, then publish.  Saturation:
publish to `twoSubServer`, whose subscriber 1 has a full outbox and is
evicted, then publish again.  In both runs the subscriber stays out of
membership with a closed outbox that receives nothing further. -/
theorem C3_unregistered_never_enqueued_witness :
    (oneSubServer.subs.Nodup ∧ Op.register 0 ∉ [Op.publish [1]] ∧
      ∃ s1, run oneSubServer (Op.unregister 0 :: [Op.publish [1]]) = .ok s1 ∧
        (0 ∉ s1.subs ∧ (s1.chans 0).buf <:+ (oneSubServer.chans 0).buf ∧
          (s1.chans 0).closed = true)) ∧
    (twoSubServer.subs.Nodup ∧ 1 ∈ twoSubServer.subs ∧
      ¬ (twoSubServer.chans 1).buf.length < twoSubServer.cap ∧
      Op.register 1 ∉ [Op.publish [8]] ∧
      ∃ s1, run twoSubServer (Op.publish [7] :: [Op.publish [8]]) = .ok s1 ∧
        (1 ∉ s1.subs ∧ (s1.chans 1).buf <:+ (twoSubServer.chans 1).buf ∧
          (s1.chans 1).closed = true)) := by
  constructor
  · refine ⟨by decide, by decide, _, rfl, ?_⟩
    exact C3_unregistered_never_enqueued oneSubServer _ 0 (Op.unregister 0)
      [Op.publish [1]] (by decide) (Or.inl rfl) (by decide) rfl
  · refine ⟨by decide, by decide, by decide, by decide, _, rfl, ?_⟩
    exact C3_unregistered_never_enqueued twoSubServer _ 1 (Op.publish [7])
      [Op.publish [8]] (by decide) (Or.inr ⟨[7], rfl, by decide, by decide⟩)
      (by decide) rfl

/-- C4 concerns a code bug: the write loop has no clean-termination path.
The only `return`s in the loop body are the two transport-write failures
(first conjunct: every iteration with a successful write continues the
loop).  On an outbox that is closed and drained, a receive is always ready
and yields the zero value, so the loop writes an empty text message and
continues (second conjunct), and with a healthy transport it runs forever
instead of terminating cleanly (third conjunct). -/
theorem C4_write_loop_has_no_clean_exit :
    (∀ c : Chan, ∃ c1 w, wsStep c true = WsOutcome.cont c1 w) ∧
    wsStep ⟨[], true⟩ true = WsOutcome.cont ⟨[], true⟩ (some []) ∧
    (∀ n : Nat, wsIter (fun _ => true) n ⟨[], true⟩ = WsState.running ⟨[], true⟩) := by
  refine ⟨?_, rfl, ?_⟩
  · intro c
    rcases c with ⟨buf, closed⟩
    cases buf with
    | nil =>
      cases closed
      · exact ⟨⟨[], false⟩, none, rfl⟩
      · exact ⟨⟨[], true⟩, some [], rfl⟩
    | cons hd tl =>
      cases closed
      · exact ⟨⟨tl, false⟩, some hd, rfl⟩
      · exact ⟨⟨tl, true⟩, some hd, rfl⟩
  · intro n
    induction n with
    | zero => rfl
    | succ k ih =>
      simp only [wsIter, wsStep]
      simpa using ih

/-- C5: for every finite sequence of register/unregister calls that
completes without panicking, starting from the empty registry, the
membership list's length — the count the registry reports — equals the
number of subscribers registered and not yet unregistered, as computed
from the call sequence itself, and the membership agrees elementwise. -/
theorem C5_member_count_accurate (ops : List Op) (s s1 : Server)
    (hops : ∀ op ∈ ops, isRegEvent op = true)
    (hinit : s.subs = []) (hrun : run s ops = .ok s1) :
    s1.subs.length = (registeredNotUnregistered [] ops).length ∧
      ∀ x, x ∈ s1.subs ↔ x ∈ registeredNotUnregistered [] ops := by
  have := run_subs_track ops s s1 hops hrun
  rw [hinit] at this
  rw [this]
  exact ⟨rfl, fun x => Iff.rfl⟩

/-- Witness for C5: register 0 and 1 then unregister 0; the count is 1. -/
theorem C5_member_count_accurate_witness :
    (∀ op ∈ [Op.register 0, Op.register 1, Op.unregister 0], isRegEvent op = true) ∧
    freshServer.subs = [] ∧
    ∃ s1, run freshServer [Op.register 0, Op.register 1, Op.unregister 0] = .ok s1 ∧
      (s1.subs.length =
          (registeredNotUnregistered [] [Op.register 0, Op.register 1,
            Op.unregister 0]).length ∧
        ∀ x, x ∈ s1.subs ↔
          x ∈ registeredNotUnregistered [] [Op.register 0, Op.register 1,
            Op.unregister 0]) := by
  refine ⟨by decide, rfl, _, rfl, ?_⟩
  exact C5_member_count_accurate [Op.register 0, Op.register 1, Op.unregister 0]
    freshServer _ (by decide) rfl rfl

/-- C6: a subscriber that starts registered with a fresh outbox and is
never unregistered nor evicted for saturation (it is still a member at
the end, and identities are never re-registered) receives exactly the
published payloads, in publish order: the payloads its write loop has
written to the transport followed by the ones still pending in its outbox
are precisely the sequence of `publish` payloads of the trace. -/
theorem C6_fifo_per_subscriber (s s1 : Server) (sub : SubId) (ops : List Op)
    (hnd : s.subs.Nodup) (hmem : sub ∈ s.subs)
    (hopen : (s.chans sub).closed = false)
    (hw : s.written sub = []) (hb : (s.chans sub).buf = [])
    (hreg : Op.register sub ∉ ops) (hunreg : Op.unregister sub ∉ ops)
    (hrun : run s ops = .ok s1) (hmem1 : sub ∈ s1.subs) :
    s1.written sub ++ (s1.chans sub).buf = publishedPayloads ops := by
  have := run_member_fifo sub ops s s1 hrun hreg hunreg hnd hmem hopen hmem1
  rw [hw, hb] at this
  simpa using this

/-- Witness for C6: publish, drain once, publish again; subscriber 0's
written-then-pending sequence is exactly the two published payloads in
order. -/
theorem C6_fifo_per_subscriber_witness :
    oneSubServer.subs.Nodup ∧ 0 ∈ oneSubServer.subs ∧
    ∃ s1, run oneSubServer [Op.publish [1], Op.dequeue 0, Op.publish [2]] = .ok s1 ∧
      0 ∈ s1.subs ∧
      s1.written 0 ++ (s1.chans 0).buf =
        publishedPayloads [Op.publish [1], Op.dequeue 0, Op.publish [2]] := by
  refine ⟨by decide, by decide, _, rfl, by decide, ?_⟩
  exact C6_fifo_per_subscriber oneSubServer _ 0
    [Op.publish [1], Op.dequeue 0, Op.publish [2]]
    (by decide) (by decide) rfl rfl rfl (by decide) (by decide) rfl (by decide)

/-- C7: a publisher cycle hands a payload to `publishMsg` exactly when
every metric-collection step and every render step succeeds, and publishes
nothing (no partial publish) when any of them fails: the cycle's publish
count (`isSome` of its optional payload, zero or one) equals the
conjunction of all step successes. -/
theorem C7_cycle_publishes_iff_all_steps_succeed (env : CycleEnv) :
    (runCycle env).isSome =
      (isOkB env.sys && isOkB env.dsk && isOkB env.cpu && isOkB env.renderSystem &&
        isOkB env.renderDisk && isOkB env.renderCPU && isOkB env.renderStatus) := by
  rcases env with ⟨sys, dsk, cpu, rs, rd, rc, rst⟩
  cases sys <;> cases dsk <;> cases cpu <;> cases rs <;> cases rd <;> cases rc <;>
    cases rst <;> simp [runCycle, isOkB]

/-- C8: each metric handler returns exactly one of two outcomes — a
non-nil snapshot with nil error, or a nil snapshot with the non-nil error
of the underlying gopsutil source — never both and never neither. -/
theorem C8_handlers_exclusive_outcomes (os : String) (vm : Except Err VMStat)
    (host : Except Err HostStat) (dsk : Except Err DiskStat)
    (cpuStat : Except Err (List CPUStatEntry)) (pct : Except Err (List ℚ)) :
    ((∃ i, GetSystemInfo os vm host = (some i, none)) ∨
      (∃ e, GetSystemInfo os vm host = (none, some e) ∧
        (vm = .error e ∨ host = .error e))) ∧
    ((∃ i, GetDiskInfo dsk = (some i, none)) ∨
      (∃ e, GetDiskInfo dsk = (none, some e) ∧ dsk = .error e)) ∧
    ((∃ i, GetCPUInfo cpuStat pct = (some i, none)) ∨
      (∃ e, GetCPUInfo cpuStat pct = (none, some e) ∧
        (cpuStat = .error e ∨ pct = .error e))) := by
  refine ⟨?_, ?_, ?_⟩
  · cases vm with
    | error e => exact Or.inr ⟨e, rfl, Or.inl rfl⟩
    | ok v =>
      cases host with
      | error e => exact Or.inr ⟨e, rfl, Or.inr rfl⟩
      | ok hst => exact Or.inl ⟨_, rfl⟩
  · cases dsk with
    | error e => exact Or.inr ⟨e, rfl, rfl⟩
    | ok d => exact Or.inl ⟨_, rfl⟩
  · cases cpuStat with
    | error e => exact Or.inr ⟨e, rfl, Or.inl rfl⟩
    | ok entries =>
      cases pct with
      | error e => exact Or.inr ⟨e, rfl, Or.inr rfl⟩
      | ok ps =>
        cases entries with
        | nil => exact Or.inl ⟨_, rfl⟩
        | cons first others => exact Or.inl ⟨_, rfl⟩

/-- C9: when `cpu.Info()` returns an empty list (and no error),
`GetCPUInfo` still succeeds with the Go zero values — empty model name
and family, zero clock — and the given percentages; it performs no
out-of-bounds access. -/
theorem C9_empty_cpu_list_zero_values (ps : List ℚ) :
    GetCPUInfo (.ok []) (.ok ps) =
      (some { modelName := "", family := "", mhz := 0, percentages := ps }, none) := rfl

/-- C10: on success, `GetSystemInfo` reports memory in mebibytes by exact
flooring division of the source byte counts by 2 to the 20th, `GetDiskInfo`
reports sizes in gibibytes by flooring division by 2 to the 30th, and both
pass `UsedPercent` through unchanged. -/
theorem C10_unit_conversions (os : String) (v : VMStat) (hst : HostStat) (d : DiskStat) :
    GetSystemInfo os (.ok v) (.ok hst) =
      (some { os := os, platform := hst.platform, hostname := hst.hostname,
              procs := hst.procs, totalMem := v.total / 2 ^ 20,
              freeMem := v.free / 2 ^ 20, usedPercent := v.usedPercent }, none) ∧
    GetDiskInfo (.ok d) =
      (some { total := d.total / 2 ^ 30, used := d.used / 2 ^ 30,
              free := d.free / 2 ^ 30, usedPercent := d.usedPercent }, none) := by
  constructor
  · simp only [GetSystemInfo]
    norm_num [megabyteDiv]
  · simp only [GetDiskInfo]
    norm_num [gigabyteDiv, megabyteDiv]

end SystemMonitor
